import Mathlib

/-!
# basemodel: CRUD helpers, filter clause builder and paged search

A shallow embedding of `basemodel.go`.  The persistence engine (gorm and the
database behind it) is an external collaborator: its answers are the fields
of `Engine`, its observable calls are recorded as `Event`s in `World.log`,
and a handle (`*gorm.DB`) is the value `DB` carrying the conditions chained
on it so far.
-/

namespace Basemodel

/-! ## Strings (the Go library functions the source calls) -/

/-- The case mappings of the Go library, `unicode.ToUpper` and
`unicode.ToLower`: tables of the Unicode standard, outside this repository,
taken as a parameter.  The general statements below hold for whatever the
tables map a rune to; the evaluated examples use `asciiCase`. -/
structure CaseTable where
  upper : Char → Char
  lower : Char → Char

/-- Go `strings.ToUpper`: every rune of `s` mapped through `unicode.ToUpper`. -/
def ToUpper (tbl : CaseTable) (s : String) : String := String.mk (s.data.map tbl.upper)

/-- Go `strings.ToLower`: every rune of `s` mapped through `unicode.ToLower`. -/
def ToLower (tbl : CaseTable) (s : String) : String := String.mk (s.data.map tbl.lower)

/-- Worker of `Split`: `cur` holds the current piece, reversed. -/
def splitAux : List Char → List Char → List String
  | [], cur => [String.mk cur.reverse]
  | c :: cs, cur =>
    if c = ',' then String.mk cur.reverse :: splitAux cs [] else splitAux cs (c :: cur)

/-- Go `strings.Split(s, ",")`: the pieces between commas; one (empty) piece
for the empty string. -/
def Split (s : String) : List String := splitAux s.data []

/-- Go `strings.Join(elems, sep)`. -/
def Join : List String → String → String
  | [], _ => ""
  | [a], _ => a
  | a :: b :: rest, sep => a ++ sep ++ Join (b :: rest) sep

/-! ## Data model -/

/-- Go `error`: `none` is `nil`. -/
abbrev Error := String

/-- The record base type `BaseModel` (times as timestamps). -/
structure BaseModel where
  ID : Nat
  CreatedTime : Nat
  UpdatedTime : Nat
  deriving DecidableEq, Repr

/-- A dynamically typed value (`interface{}`) as a filter field or a bound
parameter can hold it.  `CompareFilter v1 v2` is the struct `CompareFilter{Value1, Value2}`,
`strs` is `[]string`, `null` is the nil interface. -/
inductive Value where
  | str (s : String)
  | int (n : Int)
  | bool (b : Bool)
  | strs (l : List String)
  | CompareFilter (Value1 Value2 : Value)
  | null
  deriving DecidableEq, Repr

/-- One field of a filter struct: its `json` tag, its `condition` tag and the
value it holds. -/
structure Field where
  json : String
  condition : String
  value : Value
  deriving DecidableEq, Repr

/-- One `Where` call: the SQL fragment and the parameters bound to its `?`. -/
structure Predicate where
  query : String
  args : List Value
  deriving DecidableEq, Repr

/-- A gorm handle: its identity (the connection or transaction it stands
for) and the conditions chained on it. -/
structure DB where
  id : Nat
  wheres : List Predicate
  orders : List String
  limit : Option Int
  offset : Option Int
  deriving DecidableEq, Repr

/-- gorm `db.Where(query, args...)`: a handle with one more predicate. -/
def DB.Where (db : DB) (query : String) (args : List Value) : DB :=
  { db with wheres := db.wheres ++ [⟨query, args⟩] }

/-- gorm `db.Order(value)`: a handle with one more order clause; an empty
`value` is ignored (`if value != nil && value != ""` in gorm). -/
def DB.Order (db : DB) (value : String) : DB :=
  if value ≠ "" then { db with orders := db.orders ++ [value] } else db

/-- gorm `db.Limit(n)`. -/
def DB.Limit (db : DB) (n : Int) : DB := { db with limit := some n }

/-- gorm `db.Offset(n)`. -/
def DB.Offset (db : DB) (n : Int) : DB := { db with offset := some n }

/-- The envelope `PagedSearchResult`. -/
structure PagedSearchResult where
  TotalData : Int
  Rows : Int
  CurrentPage : Int
  LastPage : Int
  From : Int
  To : Int
  Data : List BaseModel
  deriving DecidableEq, Repr

/-! ## The filter clause builder `query` -/

/-- Body of the loop of `query` for one field; `none` is a panic (a failed
type assertion `.(string)` or `.([]string)`). -/
def queryStep (tbl : CaseTable) (db : DB) (f : Field) : Option DB :=
  if f.value ≠ Value.str "" then
    if f.condition = "LIKE" then
      match f.value with
      | Value.str s =>
        some (db.Where ("LOWER(" ++ f.json ++ ") " ++ f.condition ++ " ?")
          [Value.str ("%" ++ ToLower tbl s ++ "%")])
      | _ => none
    else if f.condition = "OR" then
      match f.value with
      | Value.strs l =>
        some (db.Where (Join (l.map fun filter => f.json ++ " = '" ++ filter ++ "' ") " OR ") [])
      | _ => none
    else if f.condition = "BETWEEN" then
      match f.value with
      | Value.CompareFilter v1 v2 =>
        if v1 ≠ Value.str "" then
          some (db.Where (f.json ++ " " ++ f.condition ++ " ? " ++ "AND" ++ " ?") [v1, v2])
        else some db
      | _ => some db
    else some (db.Where (f.json ++ " = ?") [f.value])
  else some db

/-- The function `query`: the handle its local variable `db` holds after the
loop over the fields of the filter. -/
def query (tbl : CaseTable) (db : DB) : List Field → Option DB
  | [] => some db
  | f :: fs => (queryStep tbl db f).bind fun db1 => query tbl db1 fs

/-! ## The engine: transactions, statements and the call log -/

/-- A call made on the engine, in the order made. -/
inductive Event where
  | begin (tx : Nat)
  | commit (h : Nat)
  | rollback (h : Nat)
  | insert (h : Nat) (i : BaseModel)
  | update (h : Nat) (i : BaseModel)
  | delete (h : Nat) (i : BaseModel)
  | last (q : DB) (id : Option Int)
  | find (q : DB)
  | count (q : DB)
  deriving DecidableEq, Repr

/-- The answers of the persistence engine. -/
structure Engine where
  /-- what `NewRecord(i)` reports -/
  NewRecord : BaseModel → Bool
  /-- the `.Error` of `Create(i)`, `Save(i)`, `Delete(i)` -/
  createErr : BaseModel → Option Error
  saveErr : BaseModel → Option Error
  deleteErr : BaseModel → Option Error
  /-- the `.Error` of `Last`, `Find` and `Count` on a handle -/
  lastErr : DB → Option Int → Option Error
  findErr : DB → Option Error
  countErr : DB → Option Error
  /-- the number `Count` stores when it succeeds -/
  count : DB → Int
  /-- the rows a successful `Find` on the handle loads from a table -/
  select : DB → List BaseModel → List BaseModel
  /-- what a failed statement leaves behind in the table it ran on -/
  dirty : List BaseModel → List BaseModel

/-- The world the operations run in: the package variable `db`, the
committed table, the open transactions with their working copies, the next
free handle identity and the log of engine calls. -/
structure World where
  db : DB
  rows : List BaseModel
  pending : List (Nat × List BaseModel)
  next : Nat
  log : List Event

/-- Handle `db.Begin()`: a fresh transaction working on a copy of the table. -/
def Begin (w : World) : DB × World :=
  ({ w.db with id := w.next },
   { w with pending := (w.next, w.rows) :: w.pending, next := w.next + 1,
            log := w.log ++ [Event.begin w.next] })

/-- Handle `h.Commit()`: an open transaction publishes its working copy and
closes; on a handle that is not an open transaction nothing changes. -/
def Commit (h : Nat) (w : World) : World :=
  match w.pending.find? (fun p => p.1 = h) with
  | some p => { w with rows := p.2, pending := w.pending.filter (fun p => p.1 ≠ h),
                       log := w.log ++ [Event.commit h] }
  | none => { w with log := w.log ++ [Event.commit h] }

/-- Handle `h.Rollback()`: an open transaction drops its working copy and
closes. -/
def Rollback (h : Nat) (w : World) : World :=
  { w with pending := w.pending.filter (fun p => p.1 ≠ h), log := w.log ++ [Event.rollback h] }

/-- Run a table effect on handle `h`: on the working copy of an open
transaction, else directly on the table. -/
def applyOn (h : Nat) (f : List BaseModel → List BaseModel) (w : World) : World :=
  if w.pending.any (fun p => p.1 = h) then
    { w with pending := w.pending.map fun p => if p.1 = h then (p.1, f p.2) else p }
  else { w with rows := f w.rows }

/-- A statement on handle `h` with outcome `err`: its effect when it
succeeds, the engine's leftovers when it fails; the call is logged. -/
def exec (eng : Engine) (h : Nat) (ev : Event) (err : Option Error)
    (effect : List BaseModel → List BaseModel) (w : World) : Option Error × World :=
  (err, { applyOn h (if err = none then effect else eng.dirty) w with log := w.log ++ [ev] })

/-- Statement `tx.Create(i).Error`. -/
def txCreate (eng : Engine) (tx : DB) (i : BaseModel) (w : World) : Option Error × World :=
  exec eng tx.id (Event.insert tx.id i) (eng.createErr i) (fun rs => rs ++ [i]) w

/-- Statement `tx.Save(i).Error`. -/
def txSave (eng : Engine) (tx : DB) (i : BaseModel) (w : World) : Option Error × World :=
  exec eng tx.id (Event.update tx.id i) (eng.saveErr i)
    (fun rs => rs.map fun r => if r.ID = i.ID then i else r) w

/-- Statement `tx.Delete(i).Error`. -/
def txDelete (eng : Engine) (tx : DB) (i : BaseModel) (w : World) : Option Error × World :=
  exec eng tx.id (Event.delete tx.id i) (eng.deleteErr i)
    (fun rs => rs.filter fun r => r.ID ≠ i.ID) w

/-- Statement `tx.Last(i, id).Error`. -/
def txLast (eng : Engine) (tx : DB) (id : Option Int) (w : World) : Option Error × World :=
  exec eng tx.id (Event.last tx id) (eng.lastErr tx id) (fun rs => rs) w

/-! ## Transaction wrapper and CRUD operations -/

/-- A unit of work `DBFunc`. -/
abbrev DBFunc := DB → World → Option Error × World

/-- The function `WithinTransaction`: begin, run `fn`, and the deferred
commit runs once `fn` has returned. -/
def WithinTransaction (fn : DBFunc) (w : World) : Option Error × World :=
  let b := Begin w
  let r := fn b.1 b.2
  (r.1, Commit b.1.id r.2)

/-- The function `Create`. -/
def Create (eng : Engine) (i : BaseModel) (w : World) : Option Error × World :=
  WithinTransaction (fun tx w1 =>
    if !eng.NewRecord i then (none, w1)
    else
      let r := txCreate eng tx i w1
      if r.1 ≠ none then (r.1, Rollback tx.id r.2) else (r.1, r.2)) w

/-- The function `Save`. -/
def Save (eng : Engine) (i : BaseModel) (w : World) : Option Error × World :=
  WithinTransaction (fun tx w1 =>
    if eng.NewRecord i then (none, w1)
    else
      let r := txSave eng tx i w1
      if r.1 ≠ none then (r.1, Rollback tx.id r.2) else (r.1, r.2)) w

/-- The function `Delete`. -/
def Delete (eng : Engine) (i : BaseModel) (w : World) : Option Error × World :=
  WithinTransaction (fun tx w1 =>
    let r := txDelete eng tx i w1
    if r.1 ≠ none then (r.1, Rollback tx.id r.2) else (r.1, r.2)) w

/-- The function `FindbyID`. -/
def FindbyID (eng : Engine) (id : Int) (w : World) : Option Error × World :=
  WithinTransaction (fun tx w1 =>
    let r := txLast eng tx (some id) w1
    if r.1 ≠ none then (r.1, Rollback tx.id r.2) else (r.1, r.2)) w

/-! ## Search operations -/

/-- The function `FilterSearchSingle`; `none` is a panic of `query`.  The
handle `query` builds stays in `query`: the load runs on `db`. -/
def FilterSearchSingle (tbl : CaseTable) (eng : Engine) (filter : List Field) (w : World) :
    Option (Option Error × World) :=
  match query tbl w.db filter with
  | none => none
  | some _ =>
    let err := eng.lastErr w.db none
    let w1 := { w with log := w.log ++ [Event.last w.db none] }
    if err ≠ none then some (err, Rollback w.db.id w1) else some (err, w1)

/-- The function `FilterSearch`; `none` is a panic of `query`. -/
def FilterSearch (tbl : CaseTable) (eng : Engine) (filter : List Field) (w : World) :
    Option (Option Error × World) :=
  match query tbl w.db filter with
  | none => none
  | some _ =>
    let err := eng.findErr w.db
    let w1 := { w with log := w.log ++ [Event.find w.db] }
    if err ≠ none then some (err, Rollback w.db.id w1) else some (err, w1)

/-! ## Machine arithmetic used by the pager -/

/-- Go `int` on a 64-bit platform: a result wrapped to two's complement. -/
def wrap64 (x : Int) : Int := (x + 2 ^ 63) % 2 ^ 64 - 2 ^ 63

/-- Worker of `ilog2`, by halving. -/
def bitsAux : Nat → Nat → Nat
  | 0, _ => 0
  | fuel + 1, n => if n < 2 then 0 else bitsAux fuel (n / 2) + 1

/-- Position of the highest set bit of `n` (0 for 0). -/
def ilog2 (n : Nat) : Nat := bitsAux n n

/-- A finite `float64`, as the sign and the fraction `num / den` it denotes. -/
structure Float64 where
  neg : Bool
  num : Nat
  den : Nat
  deriving DecidableEq, Repr

/-- The quotient `x / d` rounded to the nearest integer, a tie going to the
even one. -/
def roundDiv (x d : Nat) : Nat :=
  let m0 := x / d
  let rem := x % d
  if d < 2 * rem ∨ (2 * rem = d ∧ m0 % 2 = 1) then m0 + 1 else m0

/-- The ratio `a / b` rounded as IEEE 754 binary64 rounds it: to 53
significant bits, to nearest, ties to even; returned as a fraction whose
denominator is a power of two.  The ratio is examined at a fixed scale of
`2 ^ 128`: there `e` is the weight of the last of the 53 leading bits, and
the significand is the ratio divided by `2 ^ e`, rounded.  The exponent
range of binary64 is not modelled: the ratios of this program have
magnitudes between `2 ^ (-64)` and `2 ^ 64`. -/
def roundRatio (a b : Nat) : Nat × Nat :=
  let e := ilog2 (a * 2 ^ 128 / b) - 52
  (roundDiv (a * 2 ^ 128) (b * 2 ^ e) * 2 ^ (e - 128), 2 ^ (128 - e))

/-- Go conversion `float64(n)` of an `int`. -/
def float64 (n : Int) : Float64 :=
  let r := roundRatio n.natAbs 1
  ⟨decide (n < 0), r.1, r.2⟩

/-- Go `x / y` on `float64` (for `y` not zero). -/
def Float64.div (x y : Float64) : Float64 :=
  let r := roundRatio (x.num * y.den) (x.den * y.num)
  ⟨x.neg != y.neg, r.1, r.2⟩

/-- Go `math.Ceil(x)`, as the integer it denotes. -/
def Ceil (x : Float64) : Int :=
  if x.neg then -((x.num / x.den : Nat) : Int) else (((x.num + x.den - 1) / x.den : Nat) : Int)

/-- The expression `int(math.Ceil(float64(total_rows) / float64(rows)))`. -/
def lastPageOf (total_rows rows : Int) : Int :=
  wrap64 (Ceil ((float64 total_rows).div (float64 rows)))

/-! ## Paged search -/

/-- The loop `for k, v := range orders` of `PagedFilterSearch`, from index
`k` on, over the split `sort`. -/
def orderLoop (tbl : CaseTable) (sort : List String) : Nat → List String → DB → DB
  | _, [], db => db
  | k, v :: rest, db =>
    let e :=
      if sort.length > k then
        let value := sort.getD k ""
        if ToUpper tbl value = "ASC" ∨ ToUpper tbl value = "DESC" then
          v ++ " " ++ ToUpper tbl value
        else v
      else v
    orderLoop tbl sort (k + 1) rest (db.Order e)

/-- The block `// ordering and sorting` of `PagedFilterSearch`: the handle
`db` is after it. -/
def applyOrder (tbl : CaseTable) (orderby sort : String) (db : DB) : DB :=
  if orderby ≠ "" then orderLoop tbl (Split sort) 0 (Split orderby) db else db

/-- Outcome of `PagedFilterSearch`: the two return values and the world. -/
structure PagedOutcome where
  result : PagedSearchResult
  err : Option Error
  world : World

/-- The function `PagedFilterSearch`; `none` is a panic of `query`.  `bDB`
is the handle `b.DB` the page is fetched on and `i` the content of the
target before the call. -/
def PagedFilterSearch (tbl : CaseTable) (eng : Engine) (bDB : DB) (i : List BaseModel)
    (page rows : Int) (orderby sort : String) (filter : List Field) (w : World) :
    Option PagedOutcome :=
  let page := if page ≤ 0 then 1 else page
  let rows := if rows ≤ 0 then 25 else rows
  match query tbl w.db filter with
  | none => none
  | some _ =>
    let db := applyOrder tbl orderby sort w.db
    let tempDB := db
    let i1 := if eng.findErr tempDB = none then eng.select tempDB w.rows else i
    let total_rows := if eng.countErr tempDB = none then eng.count tempDB else 0
    let offset := wrap64 (wrap64 (page * rows) - rows)
    let lastPage := lastPageOf total_rows rows
    let fetch := (bDB.Limit rows).Offset offset
    let i2 := if eng.findErr fetch = none then eng.select fetch w.rows else i1
    some {
      result := {
        TotalData := total_rows
        Rows := rows
        CurrentPage := page
        LastPage := lastPage
        From := wrap64 (offset + 1)
        To := wrap64 (offset + rows)
        Data := i2 }
      err := none
      world := { w with db := db,
                        log := w.log ++ [Event.find tempDB, Event.count tempDB, Event.find fetch] } }

/-! ## What the engine does with a `LIKE` predicate -/

/-- The SQL operator `LIKE` of the engine, `likeMatch pattern text`: `%`
stands for any run of characters, `_` for any one character, every other
character for itself (standard SQL, no escape character). -/
def likeMatch : List Char → List Char → Bool
  | [], t => t.isEmpty
  | c :: p, t =>
    if c = '%' then t.tails.any (likeMatch p)
    else
      match t with
      | [] => false
      | d :: t1 => (decide (c = '_') || decide (c = d)) && likeMatch p t1

/-! ## The ordering, as the specification words it -/

/-- The direction a sort word stands for: `ASC` or `DESC` when the word is
one of the two ignoring case, that is when its runes, each mapped to upper
case, spell it. -/
def directionOf (tbl : CaseTable) (word : String) : Option String :=
  if word.data.map tbl.upper = ['A', 'S', 'C'] then some "ASC"
  else if word.data.map tbl.upper = ['D', 'E', 'S', 'C'] then some "DESC"
  else none

/-- The `k`-th order clause over the columns and the sort words: the `k`-th
column, followed by a space and the direction of the `k`-th word when there
is such a word and it stands for a direction. -/
def orderClause (tbl : CaseTable) (columns words : List String) (k : Nat) : String :=
  match (words.get? k).bind (directionOf tbl) with
  | some dir => columns.getD k "" ++ " " ++ dir
  | none => columns.getD k ""

/-- The pieces of a comma-separated string: a list of at least one piece,
none holding a comma, whose join with commas is the string. -/
def CommaPieces (pieces : List String) (s : String) : Prop :=
  pieces ≠ [] ∧ (∀ p ∈ pieces, ',' ∉ p.data) ∧ String.intercalate "," pieces = s

/-! ## Concrete inputs used by the examples -/

/-- The case table of the examples, on ASCII letters only; the Go tables
agree with it on ASCII text, which is all the examples use. -/
def asciiCase : CaseTable := ⟨Char.toUpper, Char.toLower⟩

/-- The ASCII table extended by one rune: the long s (U+017F), whose upper
case is `S` in the Go table. -/
def longSCase : CaseTable :=
  ⟨fun c => if c = Char.ofNat 383 then 'S' else c.toUpper, Char.toLower⟩

/-- A handle with nothing chained on it. -/
def emptyDB : DB := ⟨0, [], [], none, none⟩

/-- An engine on which every call succeeds, reporting `n` matches. -/
def okEngine (n : Int) : Engine :=
  { NewRecord := fun i => i.ID = 0
    createErr := fun _ => none
    saveErr := fun _ => none
    deleteErr := fun _ => none
    lastErr := fun _ _ => none
    findErr := fun _ => none
    countErr := fun _ => none
    count := fun _ => n
    select := fun _ rs => rs
    dirty := fun _ => [] }

/-- An engine on which every statement, load and count fails. -/
def failEngine : Engine :=
  { NewRecord := fun i => i.ID = 0
    createErr := fun _ => some "create failed"
    saveErr := fun _ => some "save failed"
    deleteErr := fun _ => some "delete failed"
    lastErr := fun _ _ => some "last failed"
    findErr := fun _ => some "find failed"
    countErr := fun _ => some "count failed"
    count := fun _ => 0
    select := fun _ rs => rs
    dirty := fun _ => [] }

/-- A world with two stored rows and no open transaction. -/
def sampleWorld : World :=
  { db := emptyDB, rows := [⟨1, 10, 10⟩, ⟨2, 20, 20⟩], pending := [], next := 1, log := [] }

/-- The page in force, in the words of the specification: `page` if
`page > 0`, else 1. -/
def pageInForce (page : Int) : Int := if page > 0 then page else 1

/-- The page size in force, in the words of the specification: `rows` if
`rows > 0`, else 25. -/
def rowsInForce (rows : Int) : Int := if rows > 0 then rows else 25

/-! ## Properties of the filter clause builder -/

theorem query_append (tbl : CaseTable) (db : DB) (pre post : List Field) :
    query tbl db (pre ++ post) = (query tbl db pre).bind fun d => query tbl d post := by
  induction pre generalizing db with
  | nil => simp [query]
  | cons f fs ih =>
    simp only [List.cons_append, query]
    cases queryStep tbl db f with
    | none => simp
    | some d => simp [ih]

theorem query_at (tbl : CaseTable) (db db1 : DB) (pre post : List Field) (f : Field)
    (hpre : query tbl db pre = some db1) :
    query tbl db (pre ++ f :: post) = (queryStep tbl db1 f).bind fun d => query tbl d post := by
  rw [query_append, hpre]
  simp [query]

theorem between_text (col : String) :
    col ++ " " ++ "BETWEEN" ++ " ? " ++ "AND" ++ " ?" = col ++ " BETWEEN ? AND ?" := by
  simp only [String.append_assoc]
  rfl

theorem like_text (col : String) :
    "LOWER(" ++ col ++ ") " ++ "LIKE" ++ " ?" = "LOWER(" ++ col ++ ") LIKE ?" := by
  simp only [String.append_assoc]
  rfl

/-- C6 (amended): a `BETWEEN` field holding `CompareFilter{v1, v2}` at any
place of a filter adds no predicate when `v1` is the empty string, whatever
`v2` is, and for every other `v1`, a nil `v1` included, adds exactly the one
predicate `column BETWEEN ? AND ?` bound to `v1, v2` in that order. -/
theorem query_between (tbl : CaseTable) (db db1 : DB) (pre post : List Field) (col : String)
    (v1 v2 : Value)
    (hpre : query tbl db pre = some db1) :
    query tbl db (pre ++ ⟨col, "BETWEEN", Value.CompareFilter v1 v2⟩ :: post) =
      if v1 = Value.str "" then query tbl db1 post
      else query tbl { db1 with wheres := db1.wheres ++
        [⟨col ++ " BETWEEN ? AND ?", [v1, v2]⟩] } post := by
  rw [query_at tbl db db1 pre post _ hpre]
  by_cases h : v1 = Value.str ""
  · simp [queryStep, h]
  · simp [queryStep, h, DB.Where, between_text]

theorem likeMatch_literal (p : List Char) (hp : ∀ c ∈ p, c ≠ '%' ∧ c ≠ '_') (t : List Char) :
    likeMatch (p ++ ['%']) t = true ↔ p <+: t := by
  induction p generalizing t with
  | nil => simp [likeMatch]
  | cons c p ih =>
    have hc := hp c (List.mem_cons_self c p)
    have hp1 : ∀ c ∈ p, c ≠ '%' ∧ c ≠ '_' := fun x hx => hp x (List.mem_cons_of_mem c hx)
    cases t with
    | nil => simp [likeMatch, hc.1]
    | cons d t1 =>
      simp [likeMatch, hc.1, hc.2, ih hp1 t1, List.cons_prefix_cons]

theorem likeMatch_contains (p : List Char) (hp : ∀ c ∈ p, c ≠ '%' ∧ c ≠ '_') (t : List Char) :
    likeMatch ('%' :: (p ++ ['%'])) t = true ↔ p <:+: t := by
  rw [List.infix_iff_prefix_suffix]
  simp only [likeMatch, if_true, List.any_eq_true, List.mem_tails]
  constructor
  · rintro ⟨u, hu, hm⟩
    exact ⟨u, (likeMatch_literal p hp u).1 hm, hu⟩
  · rintro ⟨u, hpu, hu⟩
    exact ⟨u, hu, (likeMatch_literal p hp u).2 hpu⟩

theorem pattern_data (tbl : CaseTable) (s : String) :
    ("%" ++ ToLower tbl s ++ "%").data = '%' :: ((ToLower tbl s).data ++ ['%']) := by
  simp [String.data_append]

/-- C9 (amended): a `LIKE` field holding a non-empty string `s` at any place
of a filter adds exactly the one predicate `LOWER(column) LIKE ?` bound to
`"%" + lowercase(s) + "%"`, lower-cased by the Go library.  When
`lowercase(s)` holds neither `%` nor `_`, a stored value matches that
pattern exactly when what the engine's `LOWER` makes of it contains
`lowercase(s)`; and so, for a stored value on which the engine's `LOWER`
agrees with the Go lower-casing, exactly when its lower-cased form contains
`lowercase(s)`.  `LOWER` is the engine's function, whatever it is. -/
theorem query_like (tbl : CaseTable) (LOWER : String → String) (db db1 : DB)
    (pre post : List Field) (col s : String)
    (hpre : query tbl db pre = some db1) (hs : s ≠ "") :
    query tbl db (pre ++ ⟨col, "LIKE", Value.str s⟩ :: post) =
        query tbl { db1 with wheres := db1.wheres ++
          [⟨"LOWER(" ++ col ++ ") LIKE ?", [Value.str ("%" ++ ToLower tbl s ++ "%")]⟩] } post ∧
      ((∀ c ∈ (ToLower tbl s).data, c ≠ '%' ∧ c ≠ '_') → ∀ stored : String,
        (likeMatch ("%" ++ ToLower tbl s ++ "%").data (LOWER stored).data = true ↔
          (ToLower tbl s).data <:+: (LOWER stored).data) ∧
        (LOWER stored = ToLower tbl stored →
          (likeMatch ("%" ++ ToLower tbl s ++ "%").data (LOWER stored).data = true ↔
            (ToLower tbl s).data <:+: (ToLower tbl stored).data))) := by
  constructor
  · rw [query_at tbl db db1 pre post _ hpre]
    simp [queryStep, hs, DB.Where, like_text]
  · intro hw stored
    have h1 : likeMatch ("%" ++ ToLower tbl s ++ "%").data (LOWER stored).data = true ↔
        (ToLower tbl s).data <:+: (LOWER stored).data := by
      rw [pattern_data]
      exact likeMatch_contains _ hw _
    refine ⟨h1, fun he => ?_⟩
    rw [h1, he]

/-- Witness of `query_like`: the value `"Smith"` and the stored value
`"John Smith Jr"`, on an engine whose `LOWER` lower-cases ASCII letters. -/
theorem query_like_witness :
    query asciiCase emptyDB ([] ++ ⟨"name", "LIKE", Value.str "Smith"⟩ :: []) =
        query asciiCase { emptyDB with wheres := emptyDB.wheres ++
          [⟨"LOWER(" ++ "name" ++ ") LIKE ?",
            [Value.str ("%" ++ ToLower asciiCase "Smith" ++ "%")]⟩] } [] ∧
      (likeMatch ("%" ++ ToLower asciiCase "Smith" ++ "%").data
          (ToLower asciiCase "John Smith Jr").data = true ↔
        (ToLower asciiCase "Smith").data <:+: (ToLower asciiCase "John Smith Jr").data) :=
  ⟨(query_like asciiCase (ToLower asciiCase) emptyDB emptyDB [] [] "name" "Smith" rfl
      (by decide)).1,
   ((query_like asciiCase (ToLower asciiCase) emptyDB emptyDB [] [] "name" "Smith" rfl
      (by decide)).2 (by decide) "John Smith Jr").1⟩

/-- The example of the specification, evaluated: the value `"Smith"` is bound
as `%smith%`, which matches the lower-cased stored value `john smith jr`. -/
theorem query_like_example :
    query asciiCase emptyDB [⟨"name", "LIKE", Value.str "Smith"⟩] =
        some (emptyDB.Where "LOWER(name) LIKE ?" [Value.str "%smith%"]) ∧
      likeMatch "%smith%".data "john smith jr".data = true := by
  constructor <;> decide

/-- C9 as stated fails: the value `"_"` gives the pattern `%_%`, which
matches the stored value `"x"` although `"x"` does not contain `"_"`. -/
theorem query_like_wildcard :
    query asciiCase emptyDB [⟨"name", "LIKE", Value.str "_"⟩] =
        some (emptyDB.Where "LOWER(name) LIKE ?" [Value.str "%_%"]) ∧
      likeMatch "%_%".data (ToLower asciiCase "x").data = true ∧
      ¬ (ToLower asciiCase "_").data <:+: (ToLower asciiCase "x").data := by
  refine ⟨by decide, by decide, ?_⟩
  decide

/-- C8 (structure): an `OR` field holding the list `l` at any place of a
filter adds exactly one predicate, with no bound parameter, whose text is
the `" OR "`-join of the fragments `column = 'v' `, the values spliced in
between single quotes as they are. -/
theorem query_or_text (tbl : CaseTable) (db db1 : DB) (pre post : List Field) (col : String)
    (l : List String)
    (hpre : query tbl db pre = some db1) :
    query tbl db (pre ++ ⟨col, "OR", Value.strs l⟩ :: post) =
      query tbl { db1 with wheres := db1.wheres ++
        [⟨Join (l.map fun v => col ++ " = '" ++ v ++ "' ") " OR ", []⟩] } post := by
  rw [query_at tbl db db1 pre post _ hpre]
  simp [queryStep, DB.Where]

/-- C8 at the failing input: the one-element list `["A'  OR col = 'B"]`
yields the very predicate the list `["A", "B"]` yields, so the engine cannot
tell the two filters apart. -/
theorem query_or_injection :
    query asciiCase emptyDB [⟨"col", "OR", Value.strs ["A'  OR col = 'B"]⟩] =
        some (emptyDB.Where "col = 'A'  OR col = 'B' " []) ∧
      query asciiCase emptyDB [⟨"col", "OR", Value.strs ["A", "B"]⟩] =
        some (emptyDB.Where "col = 'A'  OR col = 'B' " []) := by
  constructor <;> decide

/-- No way of evaluating predicates makes every `OR` predicate built by
`query` match exactly the rows whose column is one of the listed values. -/
theorem or_not_membership (sat : Predicate → String → Bool) :
    ¬ ∀ (l : List String) (x : String), l ≠ [] →
      (sat ⟨Join (l.map fun v => "col" ++ " = '" ++ v ++ "' ") " OR ", []⟩ x = true ↔ x ∈ l) := by
  intro h
  have h1 := (h ["A", "B"] "A" (by decide)).2 (by decide)
  have h2 := (h ["A'  OR col = 'B"] "A" (by decide)).1
  have e : Join (["A'  OR col = 'B"].map fun v => "col" ++ " = '" ++ v ++ "' ") " OR " =
      Join (["A", "B"].map fun v => "col" ++ " = '" ++ v ++ "' ") " OR " := by decide
  rw [e] at h2
  exact absurd (h2 h1) (by decide)

/-- C2 as stated fails: a field holding the zero value `0` of an integer
adds the predicate `age = ?` bound to `0`. -/
theorem query_zero_int :
    query asciiCase emptyDB [⟨"age", "", Value.int 0⟩] =
        some (emptyDB.Where "age = ?" [Value.int 0]) ∧
      (emptyDB.Where "age = ?" [Value.int 0]).wheres.length = emptyDB.wheres.length + 1 := by
  constructor <;> decide

/-- The zero value of `CompareFilter` (both values nil) under `BETWEEN`, and
an empty list under `OR`, add a predicate too. -/
theorem query_zero_others :
    query asciiCase emptyDB [⟨"d", "BETWEEN", Value.CompareFilter Value.null Value.null⟩] =
        some (emptyDB.Where "d BETWEEN ? AND ?" [Value.null, Value.null]) ∧
      query asciiCase emptyDB [⟨"c", "OR", Value.strs []⟩] = some (emptyDB.Where "" []) ∧
      query asciiCase emptyDB [⟨"b", "", Value.bool false⟩] =
        some (emptyDB.Where "b = ?" [Value.bool false]) := by
  refine ⟨by decide, by decide, by decide⟩

theorem queryStep_unset (tbl : CaseTable) (db : DB) (f : Field)
    (h : f.value = Value.str "" ∨
      (f.condition = "BETWEEN" ∧ ∃ v2, f.value = Value.CompareFilter (Value.str "") v2)) :
    queryStep tbl db f = some db := by
  rcases h with h | ⟨hc, v2, hv⟩
  · simp [queryStep, h]
  · simp [queryStep, hc, hv]

/-- C2 (amended): when every field of the filter holds the empty string, or
is a `BETWEEN` field holding a `CompareFilter` whose `Value1` is the empty
string, `query` adds no predicate (it ends with the handle it started with),
and `FilterSearch` issues its one `Find` on `db` as it was. -/
theorem query_all_unset (tbl : CaseTable) (eng : Engine) (db : DB) (w : World)
    (filter : List Field)
    (h : ∀ f ∈ filter, f.value = Value.str "" ∨
      (f.condition = "BETWEEN" ∧ ∃ v2, f.value = Value.CompareFilter (Value.str "") v2)) :
    query tbl db filter = some db ∧
      (FilterSearch tbl eng filter w).map (fun r => r.2.log) =
        some (w.log ++ Event.find w.db ::
          (if eng.findErr w.db = none then [] else [Event.rollback w.db.id])) := by
  have hq : ∀ d : DB, query tbl d filter = some d := by
    intro d
    induction filter with
    | nil => rfl
    | cons f fs ih =>
      simp only [query]
      rw [queryStep_unset tbl d f (h f (List.mem_cons_self f fs))]
      simp only [Option.some_bind]
      exact ih fun g hg => h g (List.mem_cons_of_mem f hg)
  refine ⟨hq db, ?_⟩
  simp only [FilterSearch, hq w.db]
  by_cases he : eng.findErr w.db = none
  · simp [he]
  · simp [he, Rollback]

/-- Witness of `query_all_unset`: a filter of an empty string and a range
with an empty first value. -/
theorem query_all_unset_witness :
    query asciiCase emptyDB [⟨"name", "LIKE", Value.str ""⟩,
        ⟨"age", "BETWEEN", Value.CompareFilter (Value.str "") (Value.int 9)⟩] = some emptyDB ∧
      (FilterSearch asciiCase (okEngine 2) [⟨"name", "LIKE", Value.str ""⟩,
        ⟨"age", "BETWEEN", Value.CompareFilter (Value.str "") (Value.int 9)⟩] sampleWorld).map
          (fun r => r.2.log) =
        some (sampleWorld.log ++ Event.find sampleWorld.db ::
          (if (okEngine 2).findErr sampleWorld.db = none then []
            else [Event.rollback sampleWorld.db.id])) :=
  query_all_unset asciiCase (okEngine 2) emptyDB sampleWorld _ (by
    intro f hf
    simp only [List.mem_cons, List.mem_singleton, List.not_mem_nil, or_false] at hf
    rcases hf with rfl | rfl
    · exact Or.inl rfl
    · exact Or.inr ⟨rfl, Value.int 9, rfl⟩)

/-- Witness of `query_between`: after an unset field, a range from 18 to 65,
a range with an empty first value and a range with a nil first value. -/
theorem query_between_witness :
    (query asciiCase emptyDB ([⟨"name", "", Value.str ""⟩] ++
        ⟨"age", "BETWEEN", Value.CompareFilter (Value.int 18) (Value.int 65)⟩ :: []) =
      if Value.int 18 = Value.str "" then query asciiCase emptyDB []
      else query asciiCase { emptyDB with wheres := emptyDB.wheres ++
        [⟨"age" ++ " BETWEEN ? AND ?", [Value.int 18, Value.int 65]⟩] } []) ∧
    (query asciiCase emptyDB ([⟨"name", "", Value.str ""⟩] ++
        ⟨"age", "BETWEEN", Value.CompareFilter (Value.str "") (Value.int 65)⟩ :: []) =
      if Value.str "" = Value.str "" then query asciiCase emptyDB []
      else query asciiCase { emptyDB with wheres := emptyDB.wheres ++
        [⟨"age" ++ " BETWEEN ? AND ?", [Value.str "", Value.int 65]⟩] } []) ∧
    (query asciiCase emptyDB ([⟨"name", "", Value.str ""⟩] ++
        ⟨"age", "BETWEEN", Value.CompareFilter Value.null (Value.int 65)⟩ :: []) =
      if Value.null = Value.str "" then query asciiCase emptyDB []
      else query asciiCase { emptyDB with wheres := emptyDB.wheres ++
        [⟨"age" ++ " BETWEEN ? AND ?", [Value.null, Value.int 65]⟩] } []) :=
  ⟨query_between asciiCase emptyDB emptyDB [⟨"name", "", Value.str ""⟩] [] "age"
      (Value.int 18) (Value.int 65) (by decide),
   query_between asciiCase emptyDB emptyDB [⟨"name", "", Value.str ""⟩] [] "age"
      (Value.str "") (Value.int 65) (by decide),
   query_between asciiCase emptyDB emptyDB [⟨"name", "", Value.str ""⟩] [] "age"
      Value.null (Value.int 65) (by decide)⟩

/-- C6 as stated fails: the range `CompareFilter{nil, 5}`, whose `Value1` is
unset, adds the predicate `d BETWEEN ? AND ?` bound to `nil, 5`. -/
theorem query_between_nil :
    query asciiCase emptyDB [⟨"d", "BETWEEN", Value.CompareFilter Value.null (Value.int 5)⟩] =
        some (emptyDB.Where "d BETWEEN ? AND ?" [Value.null, Value.int 5]) ∧
      (emptyDB.Where "d BETWEEN ? AND ?" [Value.null, Value.int 5]).wheres.length =
        emptyDB.wheres.length + 1 := by
  constructor <;> decide

/-! ## Properties of the transaction wrapper and the CRUD operations -/

theorem find_after_filter (n : Nat) (l : List (Nat × List BaseModel)) :
    (l.filter fun p => p.1 ≠ n).find? (fun p => p.1 = n) = none := by
  simp [List.find?_eq_none, List.mem_filter]

theorem find_never (l : List (Nat × List BaseModel)) :
    l.find? (fun _ => false) = none := by
  induction l with
  | nil => rfl
  | cons a t ih => simp [List.find?]

/-- A statement inside a freshly begun transaction that is rolled back when
it fails: the outcome, the calls made and the table afterwards. -/
theorem guarded_statement (eng : Engine) (ev : Event) (err : Option Error)
    (effect : List BaseModel → List BaseModel) (w : World) :
    let r := WithinTransaction (fun tx w1 =>
      let r := exec eng tx.id ev err effect w1
      if r.1 ≠ none then (r.1, Rollback tx.id r.2) else (r.1, r.2)) w
    r.1 = err ∧
      r.2.log = w.log ++ [Event.begin w.next, ev] ++
        (if err = none then [] else [Event.rollback w.next]) ++ [Event.commit w.next] ∧
      r.2.rows = (if err = none then effect w.rows else w.rows) := by
  by_cases he : err = none
  · subst he
    simp [WithinTransaction, Begin, exec, applyOn, Commit]
  · simp [WithinTransaction, Begin, exec, applyOn, Commit, Rollback, he, find_after_filter, find_never]

theorem skipped_statement (w : World) :
    let r := WithinTransaction (fun _ w1 => (none, w1)) w
    r.1 = none ∧ r.2.log = w.log ++ [Event.begin w.next, Event.commit w.next] ∧
      r.2.rows = w.rows := by
  simp [WithinTransaction, Begin, Commit]

/-- C4: `WithinTransaction` begins one transaction (the handle `w.next`),
runs `fn` once on that handle in the world right after the begin, commits
that handle once, after everything `fn` did, and returns the outcome of
`fn`, be it success or failure: when `evs` are the calls `fn` made, the
log grows by `begin`, `evs`, `commit`. -/
theorem WithinTransaction_spec (fn : DBFunc) (w : World) (evs : List Event)
    (h : (fn (Begin w).1 (Begin w).2).2.log = (Begin w).2.log ++ evs) :
    (Begin w).1.id = w.next ∧
      (WithinTransaction fn w).1 = (fn (Begin w).1 (Begin w).2).1 ∧
      (WithinTransaction fn w).2 = Commit w.next (fn (Begin w).1 (Begin w).2).2 ∧
      (WithinTransaction fn w).2.log =
        w.log ++ [Event.begin w.next] ++ evs ++ [Event.commit w.next] := by
  refine ⟨rfl, rfl, rfl, ?_⟩
  have hb : (Begin w).2.log = w.log ++ [Event.begin w.next] := rfl
  have hc : ∀ n v, (Commit n v).log = v.log ++ [Event.commit n] := by
    intro n v
    unfold Commit
    split <;> rfl
  show (Commit w.next (fn (Begin w).1 (Begin w).2).2).log = _
  rw [hc, h, hb]

/-- Witness of `WithinTransaction_spec`: a unit of work that deletes a row,
fails and reports the failure. -/
theorem WithinTransaction_spec_witness :
    (Begin sampleWorld).1.id = sampleWorld.next ∧
      (WithinTransaction (fun tx w1 => txDelete failEngine tx ⟨1, 10, 10⟩ w1) sampleWorld).1 =
        ((fun tx w1 => txDelete failEngine tx ⟨1, 10, 10⟩ w1)
          (Begin sampleWorld).1 (Begin sampleWorld).2).1 ∧
      (WithinTransaction (fun tx w1 => txDelete failEngine tx ⟨1, 10, 10⟩ w1) sampleWorld).2 =
        Commit sampleWorld.next ((fun tx w1 => txDelete failEngine tx ⟨1, 10, 10⟩ w1)
          (Begin sampleWorld).1 (Begin sampleWorld).2).2 ∧
      (WithinTransaction (fun tx w1 => txDelete failEngine tx ⟨1, 10, 10⟩ w1) sampleWorld).2.log =
        sampleWorld.log ++ [Event.begin sampleWorld.next] ++ [Event.delete 1 ⟨1, 10, 10⟩] ++
          [Event.commit sampleWorld.next] :=
  WithinTransaction_spec (fun tx w1 => txDelete failEngine tx ⟨1, 10, 10⟩ w1) sampleWorld
    [Event.delete 1 ⟨1, 10, 10⟩] rfl

/-- C10: the identity guard decides whether a write is issued.  `Create`
issues its insert exactly when the engine reports the record as new, `Save`
its update exactly when the engine reports it as not new; in the other case
the only calls are begin and commit, the table is as before and the
operation returns nil. -/
theorem identity_guard (eng : Engine) (i : BaseModel) (w : World) :
    (Create eng i w).1 = (if eng.NewRecord i then eng.createErr i else none) ∧
      (Create eng i w).2.log = w.log ++ [Event.begin w.next] ++
        (if eng.NewRecord i then
          Event.insert w.next i :: (if eng.createErr i = none then [] else [Event.rollback w.next])
         else []) ++ [Event.commit w.next] ∧
      (Create eng i w).2.rows =
        (if eng.NewRecord i = true ∧ eng.createErr i = none then w.rows ++ [i] else w.rows) ∧
      (Save eng i w).1 = (if eng.NewRecord i then none else eng.saveErr i) ∧
      (Save eng i w).2.log = w.log ++ [Event.begin w.next] ++
        (if eng.NewRecord i then []
         else Event.update w.next i ::
          (if eng.saveErr i = none then [] else [Event.rollback w.next])) ++
        [Event.commit w.next] ∧
      (Save eng i w).2.rows =
        (if eng.NewRecord i = false ∧ eng.saveErr i = none then
          w.rows.map fun r => if r.ID = i.ID then i else r
         else w.rows) := by
  have hs := skipped_statement w
  have hc := guarded_statement eng (Event.insert w.next i) (eng.createErr i)
    (fun rs => rs ++ [i]) w
  have hu := guarded_statement eng (Event.update w.next i) (eng.saveErr i)
    (fun rs => rs.map fun r => if r.ID = i.ID then i else r) w
  simp only at hs hc hu
  cases hn : eng.NewRecord i
  · have e1 : Create eng i w = WithinTransaction (fun _ w1 => (none, w1)) w := by
      simp [Create, hn]
    have e2 : Save eng i w = WithinTransaction (fun tx w1 =>
        let r := exec eng tx.id (Event.update w.next i) (eng.saveErr i)
          (fun rs => rs.map fun r => if r.ID = i.ID then i else r) w1
        if r.1 ≠ none then (r.1, Rollback tx.id r.2) else (r.1, r.2)) w := by
      simp [Save, hn, txSave, WithinTransaction, Begin]
    rw [e1, e2]
    refine ⟨by simpa using hs.1, by simpa using hs.2.1, by simpa using hs.2.2,
      by simpa using hu.1, ?_, ?_⟩
    · rw [hu.2.1]; simp
    · rw [hu.2.2]; simp
  · have e1 : Save eng i w = WithinTransaction (fun _ w1 => (none, w1)) w := by
      simp [Save, hn]
    have e2 : Create eng i w = WithinTransaction (fun tx w1 =>
        let r := exec eng tx.id (Event.insert w.next i) (eng.createErr i)
          (fun rs => rs ++ [i]) w1
        if r.1 ≠ none then (r.1, Rollback tx.id r.2) else (r.1, r.2)) w := by
      simp [Create, hn, txCreate, WithinTransaction, Begin]
    rw [e1, e2]
    refine ⟨by simpa using hc.1, ?_, ?_, by simpa using hs.1, by simpa using hs.2.1,
      by simpa using hs.2.2⟩
    · rw [hc.2.1]; simp
    · rw [hc.2.2]; simp

/-- C5: when the engine operation of `Create`, `Save`, `Delete` or
`FindbyID` fails with error `e`, the operation calls rollback on the
transaction after the failed statement and before the deferred commit and
its return, it returns `e`, and the table is afterwards what it was before
the call; so a failed `Delete` leaves every row present and unmodified. -/
theorem rollback_on_failure (eng : Engine) (i : BaseModel) (id : Int) (w : World) (e : Error) :
    (eng.NewRecord i = true → eng.createErr i = some e →
      (Create eng i w).1 = some e ∧
      (Create eng i w).2.log = w.log ++ [Event.begin w.next, Event.insert w.next i,
        Event.rollback w.next, Event.commit w.next] ∧
      (Create eng i w).2.rows = w.rows) ∧
    (eng.NewRecord i = false → eng.saveErr i = some e →
      (Save eng i w).1 = some e ∧
      (Save eng i w).2.log = w.log ++ [Event.begin w.next, Event.update w.next i,
        Event.rollback w.next, Event.commit w.next] ∧
      (Save eng i w).2.rows = w.rows) ∧
    (eng.deleteErr i = some e →
      (Delete eng i w).1 = some e ∧
      (Delete eng i w).2.log = w.log ++ [Event.begin w.next, Event.delete w.next i,
        Event.rollback w.next, Event.commit w.next] ∧
      (Delete eng i w).2.rows = w.rows) ∧
    (eng.lastErr { w.db with id := w.next } (some id) = some e →
      (FindbyID eng id w).1 = some e ∧
      (FindbyID eng id w).2.log = w.log ++ [Event.begin w.next,
        Event.last { w.db with id := w.next } (some id),
        Event.rollback w.next, Event.commit w.next] ∧
      (FindbyID eng id w).2.rows = w.rows) := by
  refine ⟨fun hn he => ?_, fun hn he => ?_, fun he => ?_, fun he => ?_⟩
  · have h := guarded_statement eng (Event.insert w.next i) (eng.createErr i)
      (fun rs => rs ++ [i]) w
    have e2 : Create eng i w = WithinTransaction (fun tx w1 =>
        let r := exec eng tx.id (Event.insert w.next i) (eng.createErr i)
          (fun rs => rs ++ [i]) w1
        if r.1 ≠ none then (r.1, Rollback tx.id r.2) else (r.1, r.2)) w := by
      simp [Create, hn, txCreate, WithinTransaction, Begin]
    rw [e2]
    simpa [he] using h
  · have h := guarded_statement eng (Event.update w.next i) (eng.saveErr i)
      (fun rs => rs.map fun r => if r.ID = i.ID then i else r) w
    have e2 : Save eng i w = WithinTransaction (fun tx w1 =>
        let r := exec eng tx.id (Event.update w.next i) (eng.saveErr i)
          (fun rs => rs.map fun r => if r.ID = i.ID then i else r) w1
        if r.1 ≠ none then (r.1, Rollback tx.id r.2) else (r.1, r.2)) w := by
      simp [Save, hn, txSave, WithinTransaction, Begin]
    rw [e2]
    simpa [he] using h
  · have h := guarded_statement eng (Event.delete w.next i) (eng.deleteErr i)
      (fun rs => rs.filter fun r => r.ID ≠ i.ID) w
    have e2 : Delete eng i w = WithinTransaction (fun tx w1 =>
        let r := exec eng tx.id (Event.delete w.next i) (eng.deleteErr i)
          (fun rs => rs.filter fun r => r.ID ≠ i.ID) w1
        if r.1 ≠ none then (r.1, Rollback tx.id r.2) else (r.1, r.2)) w := by
      simp [Delete, txDelete, WithinTransaction, Begin]
    rw [e2]
    simpa [he] using h
  · have h := guarded_statement eng (Event.last { w.db with id := w.next } (some id))
      (eng.lastErr { w.db with id := w.next } (some id)) (fun rs => rs) w
    have e2 : FindbyID eng id w = WithinTransaction (fun tx w1 =>
        let r := exec eng tx.id (Event.last { w.db with id := w.next } (some id))
          (eng.lastErr { w.db with id := w.next } (some id)) (fun rs => rs) w1
        if r.1 ≠ none then (r.1, Rollback tx.id r.2) else (r.1, r.2)) w := by
      simp [FindbyID, txLast, WithinTransaction, Begin]
    rw [e2]
    simpa [he] using h

/-- Witness of `rollback_on_failure`: on the engine where every statement
fails, a failed `Delete` of row 1 leaves both rows of the table. -/
theorem rollback_on_failure_witness :
    (Delete failEngine ⟨1, 10, 10⟩ sampleWorld).1 = some "delete failed" ∧
      (Delete failEngine ⟨1, 10, 10⟩ sampleWorld).2.log =
        sampleWorld.log ++ [Event.begin sampleWorld.next, Event.delete sampleWorld.next ⟨1, 10, 10⟩,
          Event.rollback sampleWorld.next, Event.commit sampleWorld.next] ∧
      (Delete failEngine ⟨1, 10, 10⟩ sampleWorld).2.rows = [⟨1, 10, 10⟩, ⟨2, 20, 20⟩] :=
  (rollback_on_failure failEngine ⟨1, 10, 10⟩ 1 sampleWorld "delete failed").2.2.1 rfl

/-- The search operations `FilterSearchSingle` and `FilterSearch` return the
error of their load. -/
theorem search_error_returned (tbl : CaseTable) (eng : Engine) (filter : List Field)
    (w : World) :
    (FilterSearchSingle tbl eng filter w).map (fun r => r.1) =
        (query tbl w.db filter).map (fun _ => eng.lastErr w.db none) ∧
      (FilterSearch tbl eng filter w).map (fun r => r.1) =
        (query tbl w.db filter).map (fun _ => eng.findErr w.db) := by
  constructor
  · unfold FilterSearchSingle
    cases query tbl w.db filter with
    | none => rfl
    | some d =>
      by_cases h : eng.lastErr w.db none = none <;> simp [h]
  · unfold FilterSearch
    cases query tbl w.db filter with
    | none => rfl
    | some d =>
      by_cases h : eng.findErr w.db = none <;> simp [h]

/-- The error `PagedFilterSearch` returns is nil, whatever the engine
answered. -/
theorem PagedFilterSearch_err (tbl : CaseTable) (eng : Engine) (bDB : DB) (i : List BaseModel)
    (page rows : Int) (orderby sort : String) (filter : List Field) (w : World) :
    (PagedFilterSearch tbl eng bDB i page rows orderby sort filter w).map (fun o => o.err) =
      (query tbl w.db filter).map (fun _ => none) := by
  unfold PagedFilterSearch
  cases query tbl w.db filter with
  | none => rfl
  | some d => rfl

/-- C3 at the failing input: on the engine whose every load and count
fails, `PagedFilterSearch` (page 1, 10 rows, empty filter) returns a nil
error, while `FilterSearch` on the same engine returns the error of its
load. -/
theorem PagedFilterSearch_swallows :
    (PagedFilterSearch asciiCase failEngine emptyDB [] 1 10 "" "" [] sampleWorld).map
        (fun o => o.err) = some none ∧
      failEngine.findErr sampleWorld.db = some "find failed" ∧
      failEngine.countErr sampleWorld.db = some "count failed" ∧
      failEngine.findErr ((emptyDB.Limit 10).Offset 0) = some "find failed" ∧
      (FilterSearch asciiCase failEngine [] sampleWorld).map (fun r => r.1) =
        some (some "find failed") := by
  refine ⟨rfl, rfl, rfl, rfl, rfl⟩

/-! ## Properties of the paged search -/

theorem intercalate_go (sep : String) (l : List String) (acc : String) :
    String.intercalate.go acc sep l = acc ++ String.intercalate.go "" sep l := by
  induction l generalizing acc with
  | nil => simp [String.intercalate.go]
  | cons a t ih =>
    simp only [String.intercalate.go]
    rw [ih (acc ++ sep ++ a), ih ("" ++ sep ++ a)]
    simp [String.append_assoc]

theorem intercalate_cons (sep a b : String) (rest : List String) :
    String.intercalate sep (a :: b :: rest) = a ++ sep ++ String.intercalate sep (b :: rest) := by
  simp only [String.intercalate, String.intercalate.go]
  rw [intercalate_go sep rest (a ++ sep ++ b), intercalate_go sep rest b]
  simp [String.append_assoc]

theorem splitAux_piece (p : List Char) (hp : ',' ∉ p) (cur : List Char) :
    splitAux p cur = [String.mk (cur.reverse ++ p)] := by
  induction p generalizing cur with
  | nil => simp [splitAux]
  | cons c p ih =>
    have hc : c ≠ ',' := fun h => hp (by simp [h])
    have hp1 : ',' ∉ p := fun h => hp (List.mem_cons_of_mem c h)
    simp [splitAux, hc, ih hp1]

theorem splitAux_piece_comma (p : List Char) (hp : ',' ∉ p) (rest cur : List Char) :
    splitAux (p ++ ',' :: rest) cur = String.mk (cur.reverse ++ p) :: splitAux rest [] := by
  induction p generalizing cur with
  | nil => simp [splitAux]
  | cons c p ih =>
    have hc : c ≠ ',' := fun h => hp (by simp [h])
    have hp1 : ',' ∉ p := fun h => hp (List.mem_cons_of_mem c h)
    simp [splitAux, hc, ih hp1]

/-- The model of `strings.Split` returns the comma pieces of a string,
whichever they are. -/
theorem Split_of_pieces (pieces : List String) (s : String) (h : CommaPieces pieces s) :
    Split s = pieces := by
  obtain ⟨h0, hfree, hs⟩ := h
  subst hs
  induction pieces with
  | nil => exact absurd rfl h0
  | cons a t ih =>
    have ha : ',' ∉ a.data := hfree a (List.mem_cons_self a t)
    cases t with
    | nil =>
      simp only [String.intercalate, String.intercalate.go, Split]
      rw [splitAux_piece a.data ha []]
      simp
    | cons b rest =>
      rw [intercalate_cons]
      have ih1 := ih (by simp) (fun p hp => hfree p (List.mem_cons_of_mem a hp))
      simp only [Split, String.data_append] at ih1 ⊢
      rw [List.append_assoc, List.singleton_append, splitAux_piece_comma a.data ha, ih1]
      simp

theorem splitAux_pieces (cs cur : List Char) (hcur : ',' ∉ cur) :
    splitAux cs cur ≠ [] ∧ (∀ p ∈ splitAux cs cur, ',' ∉ p.data) ∧
      (String.intercalate "," (splitAux cs cur)).data = cur.reverse ++ cs := by
  induction cs generalizing cur with
  | nil =>
    refine ⟨by simp [splitAux], ?_, by simp [splitAux, String.intercalate, String.intercalate.go]⟩
    intro p hp
    simp only [splitAux, List.mem_singleton] at hp
    subst hp
    simpa using hcur
  | cons c cs ih =>
    by_cases hc : c = ','
    · subst hc
      obtain ⟨h1, h2, h3⟩ := ih [] (by simp)
      simp only [splitAux, if_true]
      refine ⟨by simp, ?_, ?_⟩
      · intro p hp
        rcases List.mem_cons.mp hp with rfl | hp
        · simpa using hcur
        · exact h2 p hp
      · obtain ⟨b, rest, hl⟩ : ∃ b rest, splitAux cs [] = b :: rest := by
          cases hsp : splitAux cs [] with
          | nil => exact absurd hsp h1
          | cons b rest => exact ⟨b, rest, rfl⟩
        rw [hl] at h3 ⊢
        rw [intercalate_cons]
        simp only [String.data_append, h3]
        have hd : (",").data = [','] := rfl
        simp [hd]
    · have hcur1 : ',' ∉ c :: cur := by
        intro h
        rcases List.mem_cons.mp h with h | h
        · exact hc h.symm
        · exact hcur h
      obtain ⟨h1, h2, h3⟩ := ih (c :: cur) hcur1
      simp only [splitAux, hc, if_false]
      exact ⟨h1, h2, by simp [h3]⟩

/-- Every string has comma pieces. -/
theorem pieces_exist (s : String) : CommaPieces (Split s) s := by
  obtain ⟨h1, h2, h3⟩ := splitAux_pieces s.data [] (by simp)
  refine ⟨h1, h2, ?_⟩
  apply String.ext
  simpa [Split] using h3

/-- A string has one list of comma pieces only. -/
theorem pieces_unique (p q : List String) (s : String) (hp : CommaPieces p s)
    (hq : CommaPieces q s) : p = q := by
  rw [← Split_of_pieces p s hp, ← Split_of_pieces q s hq]

theorem ToUpper_eq_iff (tbl : CaseTable) (value : String) (l : List Char) :
    ToUpper tbl value = String.mk l ↔ value.data.map tbl.upper = l := by
  unfold ToUpper
  constructor
  · intro h
    exact congrArg String.data h
  · intro h
    rw [h]

theorem loop_clause (tbl : CaseTable) (sort done r : List String) (v : String) (k : Nat)
    (hk : k = done.length) :
    (if sort.length > k then
        if ToUpper tbl (sort.getD k "") = "ASC" ∨ ToUpper tbl (sort.getD k "") = "DESC" then
          v ++ " " ++ ToUpper tbl (sort.getD k "")
        else v
      else v) = orderClause tbl (done ++ v :: r) sort k := by
  have hcol : (done ++ v :: r).getD k "" = v := by
    subst hk
    rw [List.getD_eq_getElem?_getD, List.getElem?_append_right (le_refl _)]
    simp
  have hA : ("ASC" : String) = String.mk ['A', 'S', 'C'] := rfl
  have hD : ("DESC" : String) = String.mk ['D', 'E', 'S', 'C'] := rfl
  unfold orderClause
  rw [hcol]
  by_cases hlen : k < sort.length
  · have hg : sort.get? k = some (sort.getD k "") := by
      simp [List.getD_eq_getElem?_getD, List.getElem?_eq_getElem hlen]
    rw [hg]
    simp only [gt_iff_lt, hlen, if_true, Option.some_bind, directionOf]
    generalize sort.getD k "" = value
    by_cases h1 : value.data.map tbl.upper = ['A', 'S', 'C']
    · have e1 : ToUpper tbl value = "ASC" := by
        rw [hA]; exact (ToUpper_eq_iff tbl _ _).2 h1
      rw [if_pos (Or.inl e1), if_pos h1, e1]
    · have e1 : ¬ ToUpper tbl value = "ASC" := by
        rw [hA]; exact fun h => h1 ((ToUpper_eq_iff tbl _ _).1 h)
      by_cases h2 : value.data.map tbl.upper = ['D', 'E', 'S', 'C']
      · have e2 : ToUpper tbl value = "DESC" := by
          rw [hD]; exact (ToUpper_eq_iff tbl _ _).2 h2
        rw [if_pos (Or.inr e2), if_neg h1, if_pos h2, e2]
      · have e2 : ¬ ToUpper tbl value = "DESC" := by
          rw [hD]; exact fun h => h2 ((ToUpper_eq_iff tbl _ _).1 h)
        rw [if_neg (not_or.2 ⟨e1, e2⟩), if_neg h1, if_neg h2]
  · have hg : sort.get? k = none := by
      simp only [List.get?_eq_none]
      omega
    rw [hg]
    simp [hlen]

theorem orderLoop_orders (tbl : CaseTable) (sort : List String) (rest done : List String)
    (k : Nat) (db : DB) (hk : k = done.length) :
    (orderLoop tbl sort k rest db).orders =
      db.orders ++ ((List.range' k rest.length).map
        (orderClause tbl (done ++ rest) sort)).filter (fun e => e ≠ "") := by
  induction rest generalizing done k db with
  | nil => simp [orderLoop]
  | cons v r ih =>
    simp only [orderLoop, List.length_cons, List.range'_succ, List.map_cons]
    rw [ih (done ++ [v]) (k + 1) _ (by simp [hk]), loop_clause tbl sort done r v k hk]
    by_cases he : orderClause tbl (done ++ v :: r) sort k = ""
    · simp [DB.Order, he]
    · simp [DB.Order, he]

/-- C7 (amended): every `orderBy` and every `sort` has its comma pieces, the
columns and the sort words.  `PagedFilterSearch` chains on `db` no order
clause when `orderBy` is empty; otherwise it goes through the columns from
left to right, the `k`-th clause being the `k`-th column followed by a space
and `ASC` or `DESC` when the `k`-th word is one of the two ignoring case,
and the bare column when that word is missing or anything else, and every
clause that is not the empty string is chained, in that order (the engine's
`Order` ignores an empty clause).  (The call stops without a result only
when `query` panics.) -/
theorem PagedFilterSearch_orders (tbl : CaseTable) (eng : Engine) (bDB : DB)
    (i : List BaseModel) (page rows : Int) (orderby sort : String) (filter : List Field)
    (w : World) :
    (∃ columns words, CommaPieces columns orderby ∧ CommaPieces words sort) ∧
    ∀ columns words, CommaPieces columns orderby → CommaPieces words sort →
      (PagedFilterSearch tbl eng bDB i page rows orderby sort filter w).map
          (fun o => o.world.db.orders) =
        (query tbl w.db filter).map (fun _ => w.db.orders ++
          if orderby = "" then []
          else ((List.range columns.length).map (orderClause tbl columns words)).filter
            (fun e => e ≠ "")) := by
  refine ⟨⟨Split orderby, Split sort, pieces_exist orderby, pieces_exist sort⟩, ?_⟩
  intro columns words hc hw
  have e1 := Split_of_pieces columns orderby hc
  have e2 := Split_of_pieces words sort hw
  unfold PagedFilterSearch
  cases query tbl w.db filter with
  | none => rfl
  | some d =>
    simp only [Option.map_some', applyOrder]
    by_cases h : orderby = ""
    · simp [h]
    · simp only [ne_eq, h, not_false_eq_true, if_true, if_false]
      rw [e1, e2, orderLoop_orders tbl words columns [] 0 w.db rfl, List.range_eq_range']
      simp

/-- Witness of `PagedFilterSearch_orders`: the columns `name`, `age`, `id`
with the words `desc`, `down`. -/
theorem PagedFilterSearch_orders_witness :
    (PagedFilterSearch asciiCase (okEngine 25) emptyDB [] 1 10 "name,age,id" "desc,down" []
        sampleWorld).map (fun o => o.world.db.orders) =
      (query asciiCase sampleWorld.db []).map (fun _ => sampleWorld.db.orders ++
        if "name,age,id" = "" then []
        else ((List.range ["name", "age", "id"].length).map
          (orderClause asciiCase ["name", "age", "id"] ["desc", "down"])).filter
            (fun e => e ≠ "")) :=
  (PagedFilterSearch_orders asciiCase (okEngine 25) emptyDB [] 1 10 "name,age,id" "desc,down" []
    sampleWorld).2 ["name", "age", "id"] ["desc", "down"]
    ⟨by decide, by decide, by decide⟩ ⟨by decide, by decide, by decide⟩

/-- Examples of the ordering, evaluated: a word that is no direction, an
empty `orderBy`, and an empty column that has a direction. -/
theorem PagedFilterSearch_orders_example :
    (PagedFilterSearch asciiCase (okEngine 25) emptyDB [] 1 10 "name,age,id" "desc,down" []
        sampleWorld).map (fun o => o.world.db.orders) = some ["name DESC", "age", "id"] ∧
      (PagedFilterSearch asciiCase (okEngine 25) emptyDB [] 1 10 "" "asc" []
        sampleWorld).map (fun o => o.world.db.orders) = some [] ∧
      (PagedFilterSearch asciiCase (okEngine 25) emptyDB [] 1 10 ",x" "Asc" []
        sampleWorld).map (fun o => o.world.db.orders) = some [" ASC", "x"] := by
  refine ⟨by decide, by decide, by decide⟩

/-- On a table that maps the long s (U+017F) to `S`, as the Go table does,
the word `deſc` is the direction `DESC`. -/
theorem PagedFilterSearch_orders_long_s :
    (PagedFilterSearch longSCase (okEngine 25) emptyDB [] 1 10 "name" "deſc" []
        sampleWorld).map (fun o => o.world.db.orders) = some ["name DESC"] := by
  decide

/-- C7 as stated fails: `orderBy = "a,,b"` has the three columns `a`, the
empty column and `b`, and two order clauses are chained, `a` and `b`. -/
theorem PagedFilterSearch_orders_empty_column :
    CommaPieces ["a", "", "b"] "a,,b" ∧
      (PagedFilterSearch asciiCase (okEngine 25) emptyDB [] 1 10 "a,,b" "" []
        sampleWorld).map (fun o => o.world.db.orders) = some ["a", "b"] := by
  refine ⟨⟨by decide, by decide, by decide⟩, by decide⟩

/-! ## The arithmetic of the pager -/

theorem bitsAux_spec (fuel n : Nat) (hf : n ≤ fuel) (hn : 0 < n) :
    2 ^ bitsAux fuel n ≤ n ∧ n < 2 ^ (bitsAux fuel n + 1) := by
  induction fuel generalizing n with
  | zero => omega
  | succ f ih =>
    unfold bitsAux
    by_cases h2 : n < 2
    · simp only [h2, if_true]
      omega
    · simp only [h2, if_false]
      have hd : 0 < n / 2 := Nat.div_pos (by omega) (by omega)
      obtain ⟨h1, h3⟩ := ih (n / 2) (by omega) hd
      constructor
      · rw [pow_succ]
        omega
      · rw [pow_succ]
        omega

theorem ilog2_spec (n : Nat) (hn : 0 < n) : 2 ^ ilog2 n ≤ n ∧ n < 2 ^ (ilog2 n + 1) :=
  bitsAux_spec n n (le_refl n) hn

theorem ilog2_lt (n j : Nat) (hn : 0 < n) (h : n < 2 ^ j) : ilog2 n < j := by
  by_contra hc
  have h1 := (ilog2_spec n hn).1
  have h2 : 2 ^ j ≤ 2 ^ ilog2 n := Nat.pow_le_pow_right (by norm_num) (by omega)
  omega

theorem ilog2_ge (n j : Nat) (h : 2 ^ j ≤ n) : j ≤ ilog2 n := by
  by_contra hc
  have hn : 0 < n := lt_of_lt_of_le (pow_pos (by norm_num) j) h
  have h1 := (ilog2_spec n hn).2
  have h2 : 2 ^ (ilog2 n + 1) ≤ 2 ^ j := Nat.pow_le_pow_right (by norm_num) (by omega)
  omega

theorem roundDiv_one (x : Nat) : roundDiv x 1 = x := by
  simp [roundDiv, Nat.mod_one]

theorem roundDiv_scale (x d c : Nat) (hc : 0 < c) : roundDiv (x * c) (d * c) = roundDiv x d := by
  unfold roundDiv
  simp only [Nat.mul_div_mul_right x d hc, Nat.mul_mod_mul_right]
  have e1 : d * c < 2 * (x % d * c) ↔ d < 2 * (x % d) := by
    constructor
    · intro h
      have : d * c < (2 * (x % d)) * c := by nlinarith
      exact lt_of_mul_lt_mul_right this (Nat.zero_le c)
    · intro h
      nlinarith
  have e2 : 2 * (x % d * c) = d * c ↔ 2 * (x % d) = d := by
    constructor
    · intro h
      have : (2 * (x % d)) * c = d * c := by nlinarith
      exact Nat.eq_of_mul_eq_mul_right hc this
    · intro h
      nlinarith
  simp only [e1, e2]

/-- Rounding `a * P / b` to the nearest integer and then taking the ceiling of
the result over `P` gives the ceiling of `a / b`, as long as `b < 2 * P`. -/
theorem roundDiv_ceil (a b P : Nat) (ha : 0 < a) (hb : 0 < b) (hP : 0 < P) (hbP : b < 2 * P) :
    (roundDiv (a * P) b + P - 1) / P = (a + b - 1) / b := by
  obtain ⟨k, t, hk, ht⟩ : ∃ k t, (a + b - 1) / b = k ∧ b * k + t + 1 = a + b ∧ t < b := by
    refine ⟨(a + b - 1) / b, (a + b - 1) % b, rfl, ?_, Nat.mod_lt _ hb⟩
    have := Nat.div_add_mod (a + b - 1) b
    omega
  obtain ⟨ht1, ht2⟩ := ht
  rw [hk]
  have hk1 : 1 ≤ k := by
    by_contra hc
    have : k = 0 := by omega
    subst this
    omega
  obtain ⟨j, rfl⟩ : ∃ j, k = j + 1 := ⟨k - 1, by omega⟩
  have hZ := Nat.div_add_mod (a * P) b
  have hr := Nat.mod_lt (a * P) hb
  set q0 := a * P / b with hq0
  set r0 := a * P % b with hr0
  -- a = b * j + t + 1
  have ha' : a = b * j + t + 1 := by
    have : b * (j + 1) = b * j + b := by ring
    omega
  have hZ2 : b * q0 + r0 = b * (j * P) + (t + 1) * P := by
    rw [hZ, ha']; ring
  have hup : b * q0 + r0 ≤ b * ((j + 1) * P) := by
    rw [hZ2]
    have : (t + 1) * P ≤ b * P := Nat.mul_le_mul_right P (by omega)
    have e : b * ((j + 1) * P) = b * (j * P) + b * P := by ring
    omega
  have hlo : b * (j * P) + P ≤ b * q0 + r0 := by
    rw [hZ2]
    have : 1 * P ≤ (t + 1) * P := Nat.mul_le_mul_right P (by omega)
    omega
  -- bounds on the rounded value
  have hm : j * P < roundDiv (a * P) b ∧ roundDiv (a * P) b ≤ (j + 1) * P := by
    unfold roundDiv
    simp only [← hq0, ← hr0]
    have hq_le : q0 ≤ (j + 1) * P := by
      have : b * q0 ≤ b * ((j + 1) * P) := by omega
      exact Nat.le_of_mul_le_mul_left this hb
    have hq_ge : j * P ≤ q0 := by
      by_contra hc
      have h1 : q0 + 1 ≤ j * P := by omega
      have h2 : b * (q0 + 1) ≤ b * (j * P) := Nat.mul_le_mul_left b h1
      have e : b * (q0 + 1) = b * q0 + b := by ring
      omega
    split
    · rename_i hc
      have hr_pos : 0 < r0 := by
        rcases hc with hc | hc
        · omega
        · omega
      constructor
      · omega
      · by_contra hcon
        have h1 : q0 = (j + 1) * P := by omega
        rw [h1] at hup
        omega
    · rename_i hc
      have h2r : 2 * r0 ≤ b := by
        by_contra hcon
        exact hc (Or.inl (by omega))
      constructor
      · by_contra hcon
        have h1 : q0 = j * P := by omega
        rw [h1] at hlo
        omega
      · exact hq_le
  obtain ⟨hm1, hm2⟩ := hm
  apply Nat.div_eq_of_lt_le
  · have : (j + 1) * P = j * P + P := by ring
    omega
  · have : (j + 1 + 1) * P = (j + 1) * P + P := by ring
    omega

/-- For a ratio of a 53-bit numerator, `roundRatio` is the rounded quotient
over a power of two `2 ^ s` that brings it to 53 bits. -/
theorem roundRatio_shape (a b c : Nat) (ha : 0 < a) (ha2 : a < 2 ^ 53) (hb : 0 < b)
    (hb2 : b ≤ 2 ^ 64) (hc : 0 < c) :
    ∃ s, b < 2 * 2 ^ s ∧ 2 ^ 52 * b ≤ a * 2 ^ s ∧
      roundRatio (a * c) (b * c) = (roundDiv (a * 2 ^ s) b, 2 ^ s) := by
  have hq : a * c * 2 ^ 128 / (b * c) = a * 2 ^ 128 / b := by
    have : a * c * 2 ^ 128 = a * 2 ^ 128 * c := by ring
    rw [this, Nat.mul_div_mul_right _ _ hc]
  have hq52 : 2 ^ 52 ≤ a * 2 ^ 128 / b := by
    rw [Nat.le_div_iff_mul_le hb]
    calc 2 ^ 52 * b ≤ 2 ^ 52 * 2 ^ 64 := Nat.mul_le_mul_left _ hb2
      _ ≤ 1 * 2 ^ 128 := by norm_num
      _ ≤ a * 2 ^ 128 := Nat.mul_le_mul_right _ ha
  have hqpos : 0 < a * 2 ^ 128 / b := lt_of_lt_of_le (by norm_num) hq52
  have hL1 : 52 ≤ ilog2 (a * 2 ^ 128 / b) := ilog2_ge _ 52 hq52
  have hL2 : ilog2 (a * 2 ^ 128 / b) < 181 := by
    apply ilog2_lt _ _ hqpos
    calc a * 2 ^ 128 / b ≤ a * 2 ^ 128 := Nat.div_le_self _ _
      _ < 2 ^ 53 * 2 ^ 128 := Nat.mul_lt_mul_of_pos_right ha2 (by norm_num)
      _ = 2 ^ 181 := by norm_num
  have hspec := (ilog2_spec _ hqpos).1
  rw [Nat.le_div_iff_mul_le hb] at hspec
  obtain ⟨e, he⟩ : ∃ e, ilog2 (a * 2 ^ 128 / b) = e + 52 :=
    ⟨ilog2 (a * 2 ^ 128 / b) - 52, by omega⟩
  rw [he] at hspec
  have he128 : e ≤ 128 := by omega
  obtain ⟨s, hs⟩ : ∃ s, 128 = s + e := ⟨128 - e, by omega⟩
  have hpe : 0 < 2 ^ e := pow_pos (by norm_num) e
  have hpow : (2 : Nat) ^ 128 = 2 ^ s * 2 ^ e := by rw [hs, pow_add]
  have hnorm : 2 ^ 52 * b ≤ a * 2 ^ s := by
    have h1 : (2 ^ 52 * b) * 2 ^ e ≤ (a * 2 ^ s) * 2 ^ e := by
      calc (2 ^ 52 * b) * 2 ^ e = 2 ^ (e + 52) * b := by rw [pow_add]; ring
        _ ≤ a * 2 ^ 128 := hspec
        _ = (a * 2 ^ s) * 2 ^ e := by rw [hpow]; ring
    exact Nat.le_of_mul_le_mul_right h1 hpe
  have hbs : b < 2 * 2 ^ s := by
    have h1 : a * 2 ^ s < 2 ^ 53 * 2 ^ s :=
      Nat.mul_lt_mul_of_pos_right ha2 (pow_pos (by norm_num) s)
    have h2 : 2 ^ 52 * b < 2 ^ 52 * (2 * 2 ^ s) := by
      calc 2 ^ 52 * b ≤ a * 2 ^ s := hnorm
        _ < 2 ^ 53 * 2 ^ s := h1
        _ = 2 ^ 52 * (2 * 2 ^ s) := by ring
    exact Nat.lt_of_mul_lt_mul_left h2
  refine ⟨s, hbs, hnorm, ?_⟩
  unfold roundRatio
  simp only [hq, he, Nat.add_sub_cancel]
  have e1 : e - 128 = 0 := by omega
  have e2 : 128 - e = s := by omega
  have e3 : a * c * 2 ^ 128 = (a * 2 ^ s) * (2 ^ e * c) := by rw [hpow]; ring
  have e4 : b * c * 2 ^ e = b * (2 ^ e * c) := by ring
  rw [e1, e2, e3, e4, roundDiv_scale _ _ _ (Nat.mul_pos hpe hc)]
  simp

theorem wrap64_of_range (x : Int) (h1 : -2 ^ 63 ≤ x) (h2 : x < 2 ^ 63) : wrap64 x = x := by
  unfold wrap64
  omega

theorem roundRatio_zero (b : Nat) : (roundRatio 0 b).1 = 0 ∧ 0 < (roundRatio 0 b).2 := by
  unfold roundRatio
  constructor
  · simp [roundDiv]
  · exact pow_pos (by norm_num) _

theorem float64_exact (a : Nat) (ha : 0 < a) (ha2 : a < 2 ^ 53) :
    ∃ s, float64 (a : Int) = ⟨false, a * 2 ^ s, 2 ^ s⟩ := by
  obtain ⟨s, -, -, h⟩ := roundRatio_shape a 1 1 ha ha2 (by norm_num) (by norm_num) (by norm_num)
  refine ⟨s, ?_⟩
  simp only [Nat.mul_one] at h
  simp only [float64, Int.natAbs_ofNat, h, roundDiv_one]
  simp

/-- On counts and page sizes below `2 ^ 53` the float expression for the last
page is the exact ceiling of the quotient. -/
theorem lastPageOf_exact (n r : Int) (hn0 : 0 ≤ n) (hn : n < 2 ^ 53) (hr0 : 0 < r)
    (hr : r < 2 ^ 53) : lastPageOf n r = (n + r - 1) / r := by
  obtain ⟨a, rfl⟩ := Int.eq_ofNat_of_zero_le hn0
  obtain ⟨b, rfl⟩ := Int.eq_ofNat_of_zero_le (le_of_lt hr0)
  have ha2 : a < 2 ^ 53 := by exact_mod_cast hn
  have hb : 0 < b := by exact_mod_cast hr0
  have hb2 : b < 2 ^ 53 := by exact_mod_cast hr
  obtain ⟨s2, h2⟩ := float64_exact b hb hb2
  have hcast : ((a : Int) + (b : Int) - 1) / (b : Int) = (((a + b - 1) / b : Nat) : Int) := by
    rw [Int.natCast_div, Nat.cast_sub (by omega)]
    push_cast
    rfl
  rw [hcast]
  rcases Nat.eq_zero_or_pos a with h0 | ha
  · subst h0
    have hz := roundRatio_zero ((float64 (0 : Int)).den * (float64 (b : Int)).num)
    have hf0 : (float64 ((0 : Nat) : Int)).num = 0 := by
      simp only [float64, Nat.cast_zero, Int.natAbs_zero]
      exact (roundRatio_zero 1).1
    have hd : (b - 1) / b = 0 := Nat.div_eq_of_lt (by omega)
    simp only [lastPageOf, Float64.div, Ceil, hf0, Nat.zero_mul, Nat.zero_add, hd]
    simp only [float64, Nat.cast_zero, Int.natAbs_zero, lt_self_iff_false, decide_False,
      Int.natAbs_ofNat]
    have hneg : decide ((b : Int) < 0) = false := by simp
    simp only [hneg, bne_self_eq_false, Bool.false_eq_true, if_false]
    have hz2 := roundRatio_zero ((roundRatio 0 1).2 * (roundRatio b 1).1)
    rw [hz2.1]
    have : ((roundRatio 0 ((roundRatio 0 1).2 * (roundRatio b 1).1)).2 - 1) /
        (roundRatio 0 ((roundRatio 0 1).2 * (roundRatio b 1).1)).2 = 0 :=
      Nat.div_eq_of_lt (by omega)
    simp only [Nat.zero_add, this]
    exact wrap64_of_range _ (by norm_num) (by norm_num)
  · have hle : (a + b - 1) / b ≤ a := by
      apply Nat.div_le_of_le_mul
      obtain ⟨a', rfl⟩ : ∃ a', a = a' + 1 := ⟨a - 1, by omega⟩
      obtain ⟨b', rfl⟩ : ∃ b', b = b' + 1 := ⟨b - 1, by omega⟩
      have : (b' + 1) * (a' + 1) = b' * a' + b' + a' + 1 := by ring
      omega
    obtain ⟨s1, h1⟩ := float64_exact a ha ha2
    have hc : 0 < 2 ^ s1 * 2 ^ s2 := Nat.mul_pos (pow_pos (by norm_num) _) (pow_pos (by norm_num) _)
    obtain ⟨s, hbs, -, hsh⟩ := roundRatio_shape a b (2 ^ s1 * 2 ^ s2) ha ha2 hb
      (le_of_lt (lt_of_lt_of_le hb2 (by norm_num))) hc
    have e1 : a * 2 ^ s1 * 2 ^ s2 = a * (2 ^ s1 * 2 ^ s2) := by ring
    have e2 : 2 ^ s1 * (b * 2 ^ s2) = b * (2 ^ s1 * 2 ^ s2) := by ring
    simp only [lastPageOf, Float64.div, Ceil, h1, h2, e1, e2, hsh, bne_self_eq_false,
      Bool.false_eq_true, if_false]
    rw [roundDiv_ceil a b (2 ^ s) ha hb (pow_pos (by norm_num) s) hbs]
    apply wrap64_of_range
    · have : (0 : Int) ≤ (((a + b - 1) / b : Nat) : Int) := Int.ofNat_nonneg _
      have h63 : (-2 : Int) ^ 63 ≤ 0 := by norm_num
      omega
    · have : (((a + b - 1) / b : Nat) : Int) ≤ (a : Int) := by exact_mod_cast hle
      have : (a : Int) < 2 ^ 53 := hn
      omega

theorem roundDiv_bounds (x d : Nat) : x / d ≤ roundDiv x d ∧ roundDiv x d ≤ x / d + 1 := by
  unfold roundDiv
  simp only
  split <;> omega

/-- A page size from `2 ^ 53` up converts to a whole `float64` that is still
at least `2 ^ 53`. -/
theorem float64_large (b : Nat) (hb1 : 2 ^ 53 ≤ b) (hb2 : b < 2 ^ 63) :
    ∃ N, 2 ^ 53 ≤ N ∧ N ≤ 2 ^ 64 ∧ float64 (b : Int) = ⟨false, N, 1⟩ := by
  have hxpos : 0 < b * 2 ^ 128 := Nat.mul_pos (by omega) (by norm_num)
  have hL1 : 181 ≤ ilog2 (b * 2 ^ 128) := by
    apply ilog2_ge
    calc 2 ^ 181 = 2 ^ 53 * 2 ^ 128 := by norm_num
      _ ≤ b * 2 ^ 128 := Nat.mul_le_mul_right _ hb1
  have hL2 : ilog2 (b * 2 ^ 128) < 191 := by
    apply ilog2_lt _ _ hxpos
    calc b * 2 ^ 128 < 2 ^ 63 * 2 ^ 128 := Nat.mul_lt_mul_of_pos_right hb2 (by norm_num)
      _ = 2 ^ 191 := by norm_num
  obtain ⟨hs1, hs2⟩ := ilog2_spec _ hxpos
  obtain ⟨t, ht⟩ : ∃ t, ilog2 (b * 2 ^ 128) = t + 181 := ⟨ilog2 (b * 2 ^ 128) - 181, by omega⟩
  have ht10 : t < 10 := by omega
  rw [ht] at hs1 hs2
  have hpe : 0 < 2 ^ (t + 129) := pow_pos (by norm_num) _
  have hm1 : 2 ^ 52 ≤ b * 2 ^ 128 / 2 ^ (t + 129) := by
    rw [Nat.le_div_iff_mul_le hpe]
    calc 2 ^ 52 * 2 ^ (t + 129) = 2 ^ (t + 181) := by rw [← pow_add]; congr 1; omega
      _ ≤ b * 2 ^ 128 := hs1
  have hm2 : b * 2 ^ 128 / 2 ^ (t + 129) < 2 ^ 53 := by
    rw [Nat.div_lt_iff_lt_mul hpe]
    calc b * 2 ^ 128 < 2 ^ (t + 181 + 1) := hs2
      _ = 2 ^ 53 * 2 ^ (t + 129) := by rw [← pow_add]; congr 1; omega
  obtain ⟨hr1, hr2⟩ := roundDiv_bounds (b * 2 ^ 128) (2 ^ (t + 129))
  have hpt1 : 2 ≤ 2 ^ (t + 1) := by
    calc 2 = 2 ^ 1 := by norm_num
      _ ≤ 2 ^ (t + 1) := Nat.pow_le_pow_right (by norm_num) (by omega)
  have hpt2 : 2 ^ (t + 1) ≤ 2 ^ 10 := Nat.pow_le_pow_right (by norm_num) (by omega)
  refine ⟨roundDiv (b * 2 ^ 128) (2 ^ (t + 129)) * 2 ^ (t + 1), ?_, ?_, ?_⟩
  · calc 2 ^ 53 = 2 ^ 52 * 2 := by norm_num
      _ ≤ roundDiv (b * 2 ^ 128) (2 ^ (t + 129)) * 2 ^ (t + 1) :=
        Nat.mul_le_mul (le_trans hm1 hr1) hpt1
  · calc roundDiv (b * 2 ^ 128) (2 ^ (t + 129)) * 2 ^ (t + 1) ≤ 2 ^ 53 * 2 ^ 10 :=
        Nat.mul_le_mul (by omega) hpt2
      _ ≤ 2 ^ 64 := by norm_num
  · have hneg : decide ((b : Int) < 0) = false := by simp
    have e1 : t + 181 - 52 = t + 129 := by omega
    have e2 : t + 129 - 128 = t + 1 := by omega
    have e3 : 128 - (t + 129) = 0 := by omega
    simp only [float64, Int.natAbs_ofNat, roundRatio, Nat.div_one, ht, e1, e2, e3, hneg,
      Nat.one_mul, pow_zero]

/-- On a count below `2 ^ 53` and a page size within the integers the float
expression for the last page is the exact ceiling of the quotient. -/
theorem lastPageOf_ceil (n r : Int) (hn0 : 0 ≤ n) (hn : n < 2 ^ 53) (hr0 : 0 < r)
    (hr : r < 2 ^ 63) : lastPageOf n r = (n + r - 1) / r := by
  by_cases hsm : r < 2 ^ 53
  · exact lastPageOf_exact n r hn0 hn hr0 hsm
  · obtain ⟨a, rfl⟩ := Int.eq_ofNat_of_zero_le hn0
    obtain ⟨b, rfl⟩ := Int.eq_ofNat_of_zero_le (le_of_lt hr0)
    have ha2 : a < 2 ^ 53 := by exact_mod_cast hn
    have hb1 : 2 ^ 53 ≤ b := by
      have : (2 : Int) ^ 53 ≤ (b : Int) := not_lt.mp hsm
      exact_mod_cast this
    have hb2 : b < 2 ^ 63 := by exact_mod_cast hr
    obtain ⟨N, hN1, hN2, h2⟩ := float64_large b hb1 hb2
    have hcast : ((a : Int) + (b : Int) - 1) / (b : Int) = (((a + b - 1) / b : Nat) : Int) := by
      rw [Int.natCast_div, Nat.cast_sub (by omega)]
      push_cast
      rfl
    rw [hcast]
    rcases Nat.eq_zero_or_pos a with h0 | ha
    · subst h0
      have hf0 : (float64 ((0 : Nat) : Int)).num = 0 := by
        simp only [float64, Nat.cast_zero, Int.natAbs_zero]
        exact (roundRatio_zero 1).1
      have hd : (b - 1) / b = 0 := Nat.div_eq_of_lt (by omega)
      simp only [lastPageOf, Float64.div, Ceil, hf0, Nat.zero_mul, Nat.zero_add, hd, h2]
      simp only [float64, Nat.cast_zero, Int.natAbs_zero, lt_self_iff_false, decide_False,
        bne_self_eq_false, Bool.false_eq_true, if_false]
      have hz2 := roundRatio_zero ((roundRatio 0 1).2 * N)
      rw [hz2.1]
      have : ((roundRatio 0 ((roundRatio 0 1).2 * N)).2 - 1) /
          (roundRatio 0 ((roundRatio 0 1).2 * N)).2 = 0 :=
        Nat.div_eq_of_lt (by omega)
      simp only [Nat.zero_add, this]
      exact wrap64_of_range _ (by norm_num) (by norm_num)
    · obtain ⟨s1, h1⟩ := float64_exact a ha ha2
      have hc : 0 < 2 ^ s1 := pow_pos (by norm_num) _
      obtain ⟨s, hbs, -, hsh⟩ := roundRatio_shape a N (2 ^ s1) ha ha2 (by omega) hN2 hc
      have e2 : 2 ^ s1 * N = N * 2 ^ s1 := by ring
      simp only [lastPageOf, Float64.div, Ceil, h1, h2, Nat.mul_one, e2, hsh, bne_self_eq_false,
        Bool.false_eq_true, if_false]
      rw [roundDiv_ceil a N (2 ^ s) ha (by omega) (pow_pos (by norm_num) s) hbs]
      have q1 : (a + N - 1) / N = 1 := by
        apply Nat.div_eq_of_lt_le <;> omega
      have q2 : (a + b - 1) / b = 1 := by
        apply Nat.div_eq_of_lt_le <;> omega
      rw [q1, q2]
      exact wrap64_of_range _ (by norm_num) (by norm_num)

theorem ceil_quotient (n r : Int) (hr : 0 < r) : ⌈(n : ℚ) / (r : ℚ)⌉ = (n + r - 1) / r := by
  have hrq : (0 : ℚ) < (r : ℚ) := by exact_mod_cast hr
  have h1 : (n + r - 1) / r * r ≤ n + r - 1 := Int.ediv_mul_le _ (ne_of_gt hr)
  have h2 : n + r - 1 < ((n + r - 1) / r + 1) * r := Int.lt_ediv_add_one_mul_self _ hr
  rw [Int.ceil_eq_iff]
  constructor
  · rw [lt_div_iff₀ hrq]
    have : ((n + r - 1) / r - 1) * r < n := by nlinarith
    exact_mod_cast this
  · rw [div_le_iff₀ hrq]
    have : n ≤ (n + r - 1) / r * r := by nlinarith
    exact_mod_cast this

theorem inForce_eq (page rows : Int) :
    (if page ≤ 0 then 1 else page) = pageInForce page ∧
      (if rows ≤ 0 then 25 else rows) = rowsInForce rows := by
  unfold pageInForce rowsInForce
  constructor <;> split <;> split <;> omega

/-- C1 (amended): with `p` and `r` the page and page size in force and `n`
the count the engine reports for `db` after the ordering, as long as
`p * r < 2 ^ 63` and `0 ≤ n < 2 ^ 53`, `PagedFilterSearch` returns a result
with `TotalData = n`, `Rows = r`, `CurrentPage = p`, `LastPage = ⌈n / r⌉`,
`From = (p - 1) * r + 1` and `To = From + r - 1`, after a load and a count on
`db` and one load on `b.DB` with limit `r` and offset `(p - 1) * r`; and
page 0 with 0 rows gives what page 1 with 25 rows gives. -/
theorem PagedFilterSearch_paging (tbl : CaseTable) (eng : Engine) (bDB : DB) (i : List BaseModel)
    (page rows : Int) (orderby sort : String) (filter : List Field) (w : World) (d : DB)
    (hq : query tbl w.db filter = some d)
    (hc : eng.countErr (applyOrder tbl orderby sort w.db) = none)
    (hn0 : 0 ≤ eng.count (applyOrder tbl orderby sort w.db))
    (hn : eng.count (applyOrder tbl orderby sort w.db) < 2 ^ 53)
    (hpr : pageInForce page * rowsInForce rows < 2 ^ 63) :
    (∃ out, PagedFilterSearch tbl eng bDB i page rows orderby sort filter w = some out ∧
      out.err = none ∧
      out.result.TotalData = eng.count (applyOrder tbl orderby sort w.db) ∧
      out.result.Rows = rowsInForce rows ∧
      out.result.CurrentPage = pageInForce page ∧
      out.result.LastPage =
        ⌈(eng.count (applyOrder tbl orderby sort w.db) : ℚ) / (rowsInForce rows : ℚ)⌉ ∧
      out.result.From = (pageInForce page - 1) * rowsInForce rows + 1 ∧
      out.result.To = out.result.From + rowsInForce rows - 1 ∧
      out.world.log = w.log ++ [Event.find (applyOrder tbl orderby sort w.db),
        Event.count (applyOrder tbl orderby sort w.db),
        Event.find ((bDB.Limit (rowsInForce rows)).Offset
          ((pageInForce page - 1) * rowsInForce rows))]) ∧
    PagedFilterSearch tbl eng bDB i 0 0 orderby sort filter w =
      PagedFilterSearch tbl eng bDB i 1 25 orderby sort filter w := by
  constructor
  · have hp1 : 1 ≤ pageInForce page := by unfold pageInForce; split <;> omega
    have hr1 : 1 ≤ rowsInForce rows := by unfold rowsInForce; split <;> omega
    have hpr0 : pageInForce page * rowsInForce rows =
        (pageInForce page - 1) * rowsInForce rows + rowsInForce rows := by ring
    have hoff0 : 0 ≤ (pageInForce page - 1) * rowsInForce rows :=
      Int.mul_nonneg (by omega) (by omega)
    have hr63 : rowsInForce rows < 2 ^ 63 := by omega
    have w1 : wrap64 (pageInForce page * rowsInForce rows) =
        pageInForce page * rowsInForce rows := wrap64_of_range _ (by omega) hpr
    have w2 : wrap64 (pageInForce page * rowsInForce rows - rowsInForce rows) =
        (pageInForce page - 1) * rowsInForce rows := by
      rw [wrap64_of_range _ (by omega) (by omega)]
      ring
    have w3 : wrap64 ((pageInForce page - 1) * rowsInForce rows + 1) =
        (pageInForce page - 1) * rowsInForce rows + 1 := wrap64_of_range _ (by omega) (by omega)
    have w4 : wrap64 ((pageInForce page - 1) * rowsInForce rows + rowsInForce rows) =
        (pageInForce page - 1) * rowsInForce rows + rowsInForce rows :=
      wrap64_of_range _ (by omega) (by omega)
    have hl := lastPageOf_ceil _ (rowsInForce rows) hn0 hn (by omega) hr63
    rw [← ceil_quotient _ _ (by omega : 0 < rowsInForce rows)] at hl
    simp only [PagedFilterSearch, hq, (inForce_eq page rows).1, (inForce_eq page rows).2, hc,
      if_true, w1, w2, w3, w4, hl]
    refine ⟨_, rfl, rfl, rfl, rfl, rfl, rfl, rfl, ?_, rfl⟩
    simp only
    ring
  · simp [PagedFilterSearch]

/-- Witness of `PagedFilterSearch_paging`: page 2 of 10 rows over 25
matches, ordered by name descending. -/
theorem PagedFilterSearch_paging_witness :
    (∃ out, PagedFilterSearch asciiCase (okEngine 25) emptyDB [] 2 10 "name" "desc"
        [⟨"name", "LIKE", Value.str "Smith"⟩] sampleWorld = some out ∧
      out.err = none ∧
      out.result.TotalData = 25 ∧
      out.result.Rows = 10 ∧
      out.result.CurrentPage = 2 ∧
      out.result.LastPage = ⌈((25 : Int) : ℚ) / ((10 : Int) : ℚ)⌉ ∧
      out.result.From = (2 - 1) * 10 + 1 ∧
      out.result.To = out.result.From + 10 - 1 ∧
      out.world.log = sampleWorld.log ++ [Event.find (applyOrder asciiCase "name" "desc" sampleWorld.db),
        Event.count (applyOrder asciiCase "name" "desc" sampleWorld.db),
        Event.find ((emptyDB.Limit 10).Offset ((2 - 1) * 10))]) ∧
    PagedFilterSearch asciiCase (okEngine 25) emptyDB [] 0 0 "name" "desc"
        [⟨"name", "LIKE", Value.str "Smith"⟩] sampleWorld =
      PagedFilterSearch asciiCase (okEngine 25) emptyDB [] 1 25 "name" "desc"
        [⟨"name", "LIKE", Value.str "Smith"⟩] sampleWorld :=
  PagedFilterSearch_paging asciiCase (okEngine 25) emptyDB [] 2 10 "name" "desc"
    [⟨"name", "LIKE", Value.str "Smith"⟩] sampleWorld
    (emptyDB.Where "LOWER(name) LIKE ?" [Value.str "%smith%"]) (by decide) rfl
    (by decide) (by decide) (by decide)

set_option maxRecDepth 100000 in
/-- The example of the specification, evaluated: page 2 of 10 rows over 25
matches gives `LastPage = 3`, `From = 11`, `To = 20`. -/
theorem PagedFilterSearch_example :
    (PagedFilterSearch asciiCase (okEngine 25) emptyDB [] 2 10 "" "" [] sampleWorld).map
        (fun o => (o.result.TotalData, o.result.LastPage, o.result.From, o.result.To)) =
      some (25, 3, 11, 20) := by
  decide

/-- C1 as stated fails: at page `2 ^ 62` with 4 rows the product `page * rows`
wraps to 0, so `From` is `-3` and `To` is `0`, not `(p - 1) * r + 1` and
`From + r - 1`. -/
theorem PagedFilterSearch_overflow :
    (PagedFilterSearch asciiCase (okEngine 25) emptyDB [] (2 ^ 62) 4 "" "" [] sampleWorld).map
        (fun o => (o.result.From, o.result.To)) = some (-3, 0) ∧
      (-3 : Int) ≠ (pageInForce (2 ^ 62) - 1) * rowsInForce 4 + 1 := by
  constructor <;> decide

set_option maxRecDepth 100000 in
/-- With `2 ^ 53 + 1` matches and `2 ^ 53` rows to the page the count rounds
to `2 ^ 53` as a `float64` and `LastPage` is 1, not the ceiling 2. -/
theorem PagedFilterSearch_rounding :
    (PagedFilterSearch asciiCase (okEngine (2 ^ 53 + 1)) emptyDB [] 1 (2 ^ 53) "" "" []
        sampleWorld).map (fun o => o.result.LastPage) = some 1 ∧
      ((2 ^ 53 + 1 + 2 ^ 53 - 1) / 2 ^ 53 : Int) = 2 := by
  constructor <;> decide

/-! ## The examples and the case table -/

/-- The outcome at `orderBy = "a,,b"` does not depend on the case table. -/
theorem orders_empty_column_any_table (tbl : CaseTable) :
    (PagedFilterSearch tbl (okEngine 25) emptyDB [] 1 10 "a,,b" "" []
        sampleWorld).map (fun o => o.world.db.orders) = some ["a", "b"] := by
  have e1 : Split "a,,b" = ["a", "", "b"] := by decide
  have e2 : Split "" = [""] := by decide
  have e3 : ToUpper tbl "" = "" := rfl
  have e4 : ("a,,b" : String) ≠ "" := by decide
  simp [PagedFilterSearch, query, applyOrder, e1, e2, e3, e4, orderLoop, DB.Order, sampleWorld,
    emptyDB]

/-- The predicate built for the value `"_"` is the same on every case table
that leaves `_` as it is, as the Go table does. -/
theorem like_wildcard_any_table (tbl : CaseTable) (h : tbl.lower '_' = '_') :
    query tbl emptyDB [⟨"name", "LIKE", Value.str "_"⟩] =
      some (emptyDB.Where "LOWER(name) LIKE ?" [Value.str "%_%"]) := by
  have e : ToLower tbl "_" = "_" := by
    simp [ToLower, h]
  simp [query, queryStep, e]

end Basemodel
